import Mathlib

/-!
Verification of the dataform-bqml incremental batch-reconciliation pipelines.

Shallow embedding of the repository's pipeline generators and of the
semantics of the SQL they emit:

* `modules/common.js` — `retryable_error_filter`; the accept predicate
  (SQL `status NOT LIKE 'A retryable error occurred:%'`).
* `modules/object_table_ml.js` (`obj_table_ml`, the freshness-scan object
  pipeline) and the guarded variant in `object_table_ml.js` whose
  `limit_clause` and REPEAT emission are conditional on `batch_size >= 0`.
* `table_ml` (the identity-retry structured pipeline).
* `modules/utils.js` — `is_declared` / `safe_declare_resolvable`.
* the JS object-literal spread used by `vision_generate_text`.
-/

set_option autoImplicit false
set_option maxRecDepth 8000

/-- `common.js` / `modules/utils.js`: the SQL accept filter string
`` `${status_col} NOT LIKE 'A retryable error occurred:%'` ``. -/
def retryable_error_filter (status_col : String) : String :=
  status_col ++ " NOT LIKE 'A retryable error occurred:%'"

/-- Semantics of `status LIKE 'A retryable error occurred:%'`:
the status string starts with the retryable-error pattern. -/
def retryable_status (status : String) : Bool :=
  "A retryable error occurred:".data.isPrefixOf status.data

/-- Semantics of the accept filter
`status NOT LIKE 'A retryable error occurred:%'`. -/
def accepts (status : String) : Bool :=
  ! retryable_status status

/-! ## String-level generation of the object pipeline (`obj_table_ml`)

Two variants exist in the repository.  The variant in
`object_table_ml.js` guards the limit clause and the REPEAT/UNTIL loop on
`batch_size >= 0`; the variant in `modules/object_table_ml.js` emits
`LIMIT ${batch_size}` and the loop unconditionally. -/

/-- `object_table_ml.js` (guarded variant):
`let limit_clause = batch_size >= 0 ? \`LIMIT ${batch_size}\` : '';` -/
def guarded_limit_clause (batch_size : Int) : String :=
  if 0 ≤ batch_size then "LIMIT " ++ toString batch_size else ""

/-- `modules/object_table_ml.js`:
`let limit_clause = \`LIMIT ${batch_size}\`;` (unconditional). -/
def obj_table_ml_limit_clause (batch_size : Int) : String :=
  "LIMIT " ++ toString batch_size

/-- The candidates SQL emitted inside the REPEAT preamble, shared shape of
both variants (the `SET candidates = ARRAY(SELECT ...)` statement). -/
def candidates_sql (unique_key source_table output_table updated_column
    limit_clause : String) : String :=
  "SET candidates = ARRAY(SELECT " ++ unique_key ++ " FROM " ++ source_table
    ++ " AS S WHERE NOT EXISTS (SELECT * FROM " ++ output_table
    ++ " AS T WHERE S." ++ unique_key ++ " = T." ++ unique_key ++ ") OR "
    ++ updated_column ++ " > (SELECT max(" ++ updated_column ++ ") FROM "
    ++ output_table ++ ") " ++ limit_clause ++ ")"

/-- `ctx.when(ctx.incremental(), a, b)`. -/
def ctx_when (incremental : Bool) (a b : String) : String :=
  if incremental then a else b

/-- The REPEAT preamble string registered by `table.preOps` in
`modules/object_table_ml.js` (always registered). -/
def obj_table_ml_preOps (unique_key source_table output_table updated_column :
    String) (batch_size : Int) (incremental : Bool) : List String :=
  [ctx_when incremental
    ("DECLARE candidates ARRAY<STRING>;\nREPEAT\n"
      ++ candidates_sql unique_key source_table output_table updated_column
           (obj_table_ml_limit_clause batch_size))
    ""]

/-- The UNTIL/END REPEAT string registered by `table.postOps` in
`modules/object_table_ml.js` (always registered). -/
def obj_table_ml_postOps (batch_duration_secs : Int) (incremental : Bool) :
    List String :=
  [ctx_when incremental
    ("UNTIL (SELECT @@row_count) = 0 OR TIMESTAMP_DIFF(CURRENT_TIMESTAMP(), @@script.creation_time, SECOND) >= "
      ++ toString batch_duration_secs ++ "\nEND REPEAT")
    ""]

/-- The preOps of the guarded variant in `object_table_ml.js`:
`table.preOps` is only called when `batch_size >= 0`. -/
def guarded_obj_table_ml_preOps (unique_key source_table output_table
    updated_column : String) (batch_size : Int) (incremental : Bool) :
    List String :=
  if 0 ≤ batch_size then
    [ctx_when incremental
      ("DECLARE candidates ARRAY<STRING>;\nREPEAT\n"
        ++ candidates_sql unique_key source_table output_table updated_column
             (guarded_limit_clause batch_size))
      ""]
  else []

/-- The postOps of the guarded variant in `object_table_ml.js`:
`table.postOps` is only called when `batch_size >= 0`. -/
def guarded_obj_table_ml_postOps (batch_duration_secs : Int)
    (batch_size : Int) (incremental : Bool) : List String :=
  if 0 ≤ batch_size then
    [ctx_when incremental
      ("UNTIL (SELECT @@row_count) = 0 OR TIMESTAMP_DIFF(CURRENT_TIMESTAMP(), @@script.creation_time, SECOND) >= "
        ++ toString batch_duration_secs ++ "\nEND REPEAT")
      ""]
  else []

/-- The WHERE clause of the guarded variant's incremental query:
`where_clause` stays `accept_filter` unless `batch_size >= 0`, in which
case it becomes `` `${unique_key} IN UNNEST(candidates) AND ${accept_filter}` ``. -/
def guarded_where_clause (unique_key accept_filter : String)
    (batch_size : Int) : String :=
  if 0 ≤ batch_size then
    unique_key ++ " IN UNNEST(candidates) AND " ++ accept_filter
  else accept_filter

/-! ## Semantic model of the object pipeline (freshness scan) -/

/-- A row of the source object table: its `uri` and the value of the
`updated` freshness column. -/
structure SrcObj where
  uri : String
  updated : Int
deriving DecidableEq, Repr

/-- A row of the object pipeline's output table: the object's `uri` and
`updated` columns plus the ML operation's status column. -/
structure OutObj where
  uri : String
  updated : Int
  status : String
deriving DecidableEq, Repr

/-- `(SELECT max(updated) FROM output)`: `none` models SQL NULL on an
empty table (NULL makes the `>` comparison fail). -/
def max_updated : List OutObj → Option Int
  | [] => none
  | t :: ts => some ((ts.map (fun u => u.updated)).foldl max t.updated)

/-- The candidates predicate of `obj_table_ml`'s preOps:
`NOT EXISTS (SELECT * FROM output T WHERE S.uri = T.uri)
 OR updated > (SELECT max(updated) FROM output)`. -/
def fresh_eligible (output : List OutObj) (s : SrcObj) : Bool :=
  output.all (fun t => t.uri ≠ s.uri) ||
    (match max_updated output with
     | none => false
     | some m => m < s.updated)

/-- `SET candidates = ARRAY(SELECT uri FROM source WHERE ... LIMIT batch)`:
the uris of eligible source rows, capped by the batch size. -/
def candidates (source : List SrcObj) (output : List OutObj)
    (batch_size : Nat) : List String :=
  (((source.filter (fun s => fresh_eligible output s)).map
      (fun s => s.uri)).take batch_size)

/-- The result row the ML operation produces for one source object
(`SELECT *` keeps the object's columns; `ml` supplies the status). -/
def obj_result (ml : SrcObj → String) (s : SrcObj) : OutObj :=
  ⟨s.uri, s.updated, ml s⟩

/-- The rows produced by one incremental query of `obj_table_ml`:
`source_func(ctx) WHERE uri IN UNNEST(candidates) AND accept_filter`. -/
def obj_written (ml : SrcObj → String) (source : List SrcObj)
    (output : List OutObj) (batch_size : Nat) : List OutObj :=
  ((source.filter
      (fun s => (candidates source output batch_size).contains s.uri)).map
        (obj_result ml)).filter (fun r => accepts r.status)

/-- Dataform incremental merge (`uniqueKey: [unique_key]`): upsert the
written rows into the output table keyed by `uri`. -/
def obj_upsert (output rows : List OutObj) : List OutObj :=
  output.filter (fun t => rows.all (fun r => r.uri ≠ t.uri)) ++ rows

/-- One body execution of `obj_table_ml`'s REPEAT loop: merge the accepted
candidate results and report `@@row_count`. -/
def obj_step (ml : SrcObj → String) (source : List SrcObj)
    (batch_size : Nat) (output : List OutObj) : List OutObj × Nat :=
  let rows := obj_written ml source output batch_size
  (obj_upsert output rows, rows.length)

/-- `init_${output_table}`:
`CREATE TABLE IF NOT EXISTS output AS source WHERE accept_filter LIMIT 10`.
`existing = some t` models an already-existing output table. -/
def obj_init (ml : SrcObj → String) (source : List SrcObj)
    (existing : Option (List OutObj)) : List OutObj :=
  match existing with
  | some t => t
  | none =>
      ((source.map (obj_result ml)).filter (fun r => accepts r.status)).take 10

/-! ## Semantic model of the structured pipeline (`table_ml`, identity retry) -/

/-- A row of the structured source query: the values of the unique-key
columns and one further (non-key) column standing for the rest of the
payload, e.g. a timestamp. -/
structure SrcRow where
  keys : List String
  payload : Int
deriving DecidableEq, Repr

/-- A row of `table_ml`'s output table: the key values plus the ML
operation's status column. -/
structure OutRow where
  keys : List String
  status : String
deriving DecidableEq, Repr

/-- The incremental WHERE clause of `table_ml`'s query:
`NOT EXISTS (SELECT * FROM output T WHERE S.k1 = T.k1 AND ... )`. -/
def identity_eligible (output : List OutRow) (s : SrcRow) : Bool :=
  output.all (fun t => t.keys ≠ s.keys)

/-- The bounded eligible subquery
`(SELECT S.* FROM (source) S WHERE NOT EXISTS (...) LIMIT batch_size)`. -/
def table_elig (source : List SrcRow) (output : List OutRow)
    (batch_size : Nat) : List SrcRow :=
  (source.filter (fun s => identity_eligible output s)).take batch_size

/-- The result row `ml_function(MODEL m, row, STRUCT(...))` produces for one
input row (`SELECT *` keeps the key columns; `ml` supplies the status). -/
def row_result (ml : SrcRow → String) (s : SrcRow) : OutRow :=
  ⟨s.keys, ml s⟩

/-- The rows produced by one incremental query of `table_ml`:
ML applied to the bounded eligible subquery, then `WHERE accept_filter`. -/
def table_written (ml : SrcRow → String) (source : List SrcRow)
    (output : List OutRow) (batch_size : Nat) : List OutRow :=
  ((table_elig source output batch_size).map (row_result ml)).filter
    (fun r => accepts r.status)

/-- Dataform incremental merge (`uniqueKey: unique_keys`): upsert the
written rows into the output table keyed by the key columns. -/
def row_upsert (output rows : List OutRow) : List OutRow :=
  output.filter (fun t => rows.all (fun r => r.keys ≠ t.keys)) ++ rows

/-- One body execution of `table_ml`'s REPEAT loop: merge the accepted
results of the bounded eligible batch and report `@@row_count`. -/
def table_step (ml : SrcRow → String) (source : List SrcRow)
    (batch_size : Nat) (output : List OutRow) : List OutRow × Nat :=
  let rows := table_written ml source output batch_size
  (row_upsert output rows, rows.length)

/-- `init_${output_table}` of `table_ml`:
`CREATE TABLE IF NOT EXISTS output AS
   SELECT * FROM ml_function(MODEL m, (SELECT * FROM (source) LIMIT batch_size),
   STRUCT(...)) WHERE accept_filter`. -/
def table_init (ml : SrcRow → String) (source : List SrcRow)
    (batch_size : Nat) (existing : Option (List OutRow)) : List OutRow :=
  match existing with
  | some t => t
  | none =>
      ((source.take batch_size).map (row_result ml)).filter
        (fun r => accepts r.status)

/-- Output tables reachable by the `table_ml` pipeline: created by the init
operation and then transformed by incremental merge iterations (each run
may use a different source snapshot and ML outcome). -/
inductive TableReach : List OutRow → Prop
  | boot (ml : SrcRow → String) (source : List SrcRow) (batch_size : Nat) :
      TableReach (table_init ml source batch_size none)
  | step (ml : SrcRow → String) (source : List SrcRow) (batch_size : Nat)
      {out : List OutRow} : TableReach out →
      TableReach (table_step ml source batch_size out).1

/-! ## The REPEAT ... UNTIL convergence loop -/

/-- The loop's observable per-iteration state: the output table contents,
`@@row_count` of the last merge, and
`TIMESTAMP_DIFF(CURRENT_TIMESTAMP(), @@script.creation_time, SECOND)`. -/
structure LoopState (σ : Type) where
  data : σ
  rows_written : Nat
  elapsed : Nat
deriving Repr

/-- The generated exit condition
`UNTIL (SELECT @@row_count) = 0 OR TIMESTAMP_DIFF(CURRENT_TIMESTAMP(),
@@script.creation_time, SECOND) >= batch_duration_secs`. -/
def until_cond {σ : Type} (batch_duration_secs : Nat) (st : LoopState σ) :
    Bool :=
  (st.rows_written == 0) || (decide (batch_duration_secs ≤ st.elapsed))

/-- `REPEAT body UNTIL cond END REPEAT`: run the body, then stop when the
exit condition holds; `fuel` bounds the recursion. -/
def run_loop {σ : Type} (step : LoopState σ → LoopState σ)
    (batch_duration_secs : Nat) : Nat → LoopState σ → LoopState σ
  | 0, st => st
  | fuel + 1, st =>
      let st' := step st
      if until_cond batch_duration_secs st' then st'
      else run_loop step batch_duration_secs fuel st'

/-- `n` successive executions of the loop body. -/
def iterate_loop {σ : Type} (step : LoopState σ → LoopState σ) :
    Nat → LoopState σ → LoopState σ
  | 0, st => st
  | n + 1, st => iterate_loop step n (step st)

/-! ## `modules/utils.js`: declaration registry -/

/-- An argument to `safe_declare_resolvable`: a dataform declaration
object, of which only the `name` property is inspected. -/
structure DfObject where
  name : String
deriving DecidableEq, Repr

/-- `is_declared(name)`: `dataform.actions.some((action) =>
action.proto.target.name === name)`; the registry is the list of declared
target names. -/
def is_declared (actions : List String) (name : String) : Bool :=
  actions.any (fun a => a == name)

/-- `declare_resolvable(obj)`: `declare({name})` registers one action whose
target carries the given name. -/
def declare_resolvable (actions : List String) (obj : DfObject) :
    List String :=
  actions ++ [obj.name]

/-- `safe_declare_resolvable(...objects)`: declare each object unless an
action with its name is already registered. -/
def safe_declare_resolvable (actions : List String)
    (objects : List DfObject) : List String :=
  objects.foldl
    (fun acc obj =>
      if is_declared acc obj.name then acc else declare_resolvable acc obj)
    actions

/-! ## JS object literals and `vision_generate_text`'s config struct -/

/-- JS property assignment on an object literal modelled as an ordered
association list: an existing key keeps its position but takes the new
value; a new key is appended. -/
def js_set {α : Type} (o : List (String × α)) (k : String) (v : α) :
    List (String × α) :=
  if o.any (fun p => p.1 == k) then
    o.map (fun p => if p.1 == k then (k, v) else p)
  else o ++ [(k, v)]

/-- The JS spread `{...o₁, ...o₂}`: assign each property of `o₂` onto `o₁`
in order. -/
def js_spread {α : Type} (o₁ o₂ : List (String × α)) : List (String × α) :=
  o₂.foldl (fun acc kv => js_set acc kv.1 kv.2) o₁

/-- Property lookup on a JS object (keys are unique in a real object, so
the first match is the value). -/
def js_get {α : Type} (o : List (String × α)) (k : String) : Option α :=
  (o.find? (fun p => p.1 == k)).map (fun p => p.2)

/-- `vision_generate_text`'s config:
`let config = {prompt: prompt, ...llm_config};`. -/
def vision_generate_text_config {α : Type} (prompt : α)
    (llm_config : List (String × α)) : List (String × α) :=
  js_spread [("prompt", prompt)] llm_config

/-- The STRUCT body emitted for the config:
`Object.entries(config).map(([k, v]) => \`${JSON.stringify(v)} AS ${k}\`).join(",")`. -/
def struct_fields {α : Type} (stringify : α → String)
    (config : List (String × α)) : String :=
  String.intercalate ","
    (config.map (fun kv => stringify kv.2 ++ " AS " ++ kv.1))

/-! ## Helper lemmas -/

lemma bool_eq_of_iff {a b : Bool} (h : a = true ↔ b = true) : a = b := by
  cases a <;> cases b <;> simp_all

/-- One step of the safe-declare fold. -/
def declare_step (acc : List String) (obj : DfObject) : List String :=
  if is_declared acc obj.name then acc else declare_resolvable acc obj

lemma safe_declare_eq_foldl (actions : List String) (objects : List DfObject) :
    safe_declare_resolvable actions objects = objects.foldl declare_step actions := rfl

lemma is_declared_declare_step (acc : List String) (obj : DfObject) (n : String)
    (h : is_declared acc n = true) : is_declared (declare_step acc obj) n = true := by
  unfold declare_step
  split
  · exact h
  · unfold declare_resolvable
    unfold is_declared at h ⊢
    simp only [List.any_append, Bool.or_eq_true]
    exact Or.inl h

lemma is_declared_mono (objects : List DfObject) :
    ∀ (actions : List String) (n : String), is_declared actions n = true →
      is_declared (safe_declare_resolvable actions objects) n = true := by
  induction objects with
  | nil => intro actions n h; exact h
  | cons o os ih =>
    intro actions n h
    rw [safe_declare_eq_foldl] at *
    exact ih (declare_step actions o) n (is_declared_declare_step actions o n h)

lemma is_declared_of_mem (objects : List DfObject) :
    ∀ (actions : List String) (o : DfObject), o ∈ objects →
      is_declared (safe_declare_resolvable actions objects) o.name = true := by
  induction objects with
  | nil => intro _ o h; cases h
  | cons o' os ih =>
    intro actions o hmem
    rcases List.mem_cons.mp hmem with heq | htail
    · subst heq
      have hstep : is_declared (declare_step actions o) o.name = true := by
        unfold declare_step
        split
        · assumption
        · unfold is_declared declare_resolvable
          simp
      rw [safe_declare_eq_foldl]
      exact is_declared_mono os (declare_step actions o) o.name hstep
    · exact ih (declare_step actions o') o htail

lemma safe_declare_noop (objects : List DfObject) :
    ∀ (actions : List String),
      (∀ o ∈ objects, is_declared actions o.name = true) →
      safe_declare_resolvable actions objects = actions := by
  induction objects with
  | nil => intro _ _; rfl
  | cons o os ih =>
    intro actions h
    rw [safe_declare_eq_foldl]
    show os.foldl declare_step (declare_step actions o) = actions
    have hstep : declare_step actions o = actions := by
      unfold declare_step
      rw [h o (List.mem_cons_self o os)]
      simp
    rw [hstep]
    exact ih actions (fun o' ho' => h o' (List.mem_cons_of_mem o ho'))

/-- C9: declare-if-absent is idempotent.  Running `safe_declare_resolvable`
a second time on the same objects changes nothing; an object whose name is
already that of a declared action is not declared again; and two successive
calls add at most one action bearing a given object name. -/
theorem safe_declare_resolvable_idempotent
    (actions : List String) (objects : List DfObject) :
    safe_declare_resolvable (safe_declare_resolvable actions objects) objects
        = safe_declare_resolvable actions objects
    ∧ (∀ o : DfObject, is_declared actions o.name = true →
        safe_declare_resolvable actions [o] = actions)
    ∧ (∀ o : DfObject,
        ((safe_declare_resolvable (safe_declare_resolvable actions [o]) [o]).count
          o.name) ≤ actions.count o.name + 1) := by
  refine ⟨?_, ?_, ?_⟩
  · exact safe_declare_noop objects _
      (fun o ho => is_declared_of_mem objects actions o ho)
  · intro o h
    exact safe_declare_noop [o] actions (by simpa using h)
  · intro o
    have h2 : safe_declare_resolvable (safe_declare_resolvable actions [o]) [o]
        = safe_declare_resolvable actions [o] :=
      safe_declare_noop [o] _ (fun o' ho' => is_declared_of_mem [o] actions o' ho')
    rw [h2]
    show (declare_step actions o).count o.name ≤ actions.count o.name + 1
    unfold declare_step
    split
    · omega
    · unfold declare_resolvable
      rw [List.count_append]
      simp [List.count_singleton]

/-- Witness for C9 at a concrete registry and object list. -/
theorem safe_declare_resolvable_idempotent_witness :
    safe_declare_resolvable
        (safe_declare_resolvable ["m"] [⟨"m"⟩, ⟨"s"⟩]) [⟨"m"⟩, ⟨"s"⟩]
      = safe_declare_resolvable ["m"] [⟨"m"⟩, ⟨"s"⟩]
    ∧ safe_declare_resolvable ["m"] [⟨"m"⟩] = ["m"]
    ∧ (safe_declare_resolvable
        (safe_declare_resolvable ["m"] [⟨"s"⟩]) [⟨"s"⟩]).count "s" ≤
        (["m"] : List String).count "s" + 1 := by
  obtain ⟨h1, h2, h3⟩ := safe_declare_resolvable_idempotent ["m"] [⟨"m"⟩, ⟨"s"⟩]
  exact ⟨h1, h2 ⟨"m"⟩ (by decide), (safe_declare_resolvable_idempotent ["m"] []).2.2 ⟨"s"⟩⟩

/-! ## JS object lookup lemmas (for `vision_generate_text`) -/

lemma js_get_map_replace_self {α : Type} (o : List (String × α)) (k : String)
    (v : α) :
    js_get (o.map (fun p => if p.1 == k then (k, v) else p)) k =
      (js_get o k).map (fun _ => v) := by
  unfold js_get
  rw [List.find?_map]
  have hfun : ((fun p : String × α => p.1 == k) ∘
      (fun p : String × α => if p.1 == k then (k, v) else p))
      = (fun p : String × α => p.1 == k) := by
    funext p
    by_cases h : (p.1 == k) = true
    · simp [Function.comp, h]
    · simp [Function.comp, h]
  rw [hfun]
  cases hf : List.find? (fun p : String × α => p.1 == k) o with
  | none => simp
  | some p₀ =>
    have hq := List.find?_some hf
    simp only [] at hq
    have hp₀ : p₀.1 = k := by simpa using hq
    simp [hp₀]

lemma js_get_map_replace_ne {α : Type} (o : List (String × α)) (k kq : String)
    (v : α) (hne : kq ≠ k) :
    js_get (o.map (fun p => if p.1 == k then (k, v) else p)) kq =
      js_get o kq := by
  unfold js_get
  rw [List.find?_map]
  have hkkq : (k == kq) = false := by
    simp only [beq_eq_false_iff_ne, ne_eq]
    exact fun h => hne h.symm
  have hfun : ((fun p : String × α => p.1 == kq) ∘
      (fun p : String × α => if p.1 == k then (k, v) else p))
      = (fun p : String × α => p.1 == kq) := by
    funext p
    by_cases h : (p.1 == k) = true
    · have hp : p.1 = k := by simpa using h
      simp [Function.comp, h, hkkq, hp]
    · simp [Function.comp, h]
  rw [hfun]
  cases hf : List.find? (fun p : String × α => p.1 == kq) o with
  | none => simp
  | some p₀ =>
    have hq := List.find?_some hf
    have hp₀ : p₀.1 = kq := by simpa using hq
    have hne₀ : ¬p₀.1 = k := by
      rw [hp₀]
      exact hne
    simp [hne₀]

lemma js_get_set_self {α : Type} (o : List (String × α)) (k : String) (v : α) :
    js_get (js_set o k v) k = some v := by
  unfold js_set
  split
  · rename_i hany
    rw [js_get_map_replace_self]
    obtain ⟨p₀, hmem, hp₀⟩ := List.any_eq_true.mp hany
    have : (List.find? (fun p : String × α => p.1 == k) o).isSome :=
      List.find?_isSome.mpr ⟨p₀, hmem, hp₀⟩
    obtain ⟨q₀, hq₀⟩ := Option.isSome_iff_exists.mp this
    unfold js_get
    rw [hq₀]
    rfl
  · rename_i hany
    have hnone : List.find? (fun p : String × α => p.1 == k) o = none := by
      rw [List.find?_eq_none]
      intro p hp hcon
      exact hany (List.any_eq_true.mpr ⟨p, hp, hcon⟩)
    unfold js_get
    rw [List.find?_append, hnone]
    simp

lemma js_get_set_ne {α : Type} (o : List (String × α)) (k kq : String) (v : α)
    (hne : kq ≠ k) : js_get (js_set o k v) kq = js_get o kq := by
  unfold js_set
  split
  · exact js_get_map_replace_ne o k kq v hne
  · unfold js_get
    rw [List.find?_append]
    have h1 : List.find? (fun p : String × α => p.1 == kq) [(k, v)] = none := by
      rw [List.find?_eq_none]
      intro p hp hcon
      simp at hp
      rw [hp] at hcon
      simp at hcon
      exact hne hcon.symm
    rw [h1]
    simp

lemma js_get_eq_none {α : Type} (o : List (String × α)) (k : String)
    (h : ∀ p ∈ o, p.1 ≠ k) : js_get o k = none := by
  unfold js_get
  rw [List.find?_eq_none.mpr]
  · rfl
  · intro p hp
    simpa using h p hp

lemma js_get_spread {α : Type} (o₂ : List (String × α)) :
    ∀ (o₁ : List (String × α)) (k : String), (o₂.map Prod.fst).Nodup →
      js_get (js_spread o₁ o₂) k =
        ((js_get o₂ k).map some).getD (js_get o₁ k) := by
  induction o₂ with
  | nil => intro o₁ k _; rfl
  | cons p ps ih =>
    intro o₁ k hnd
    simp only [List.map_cons, List.nodup_cons] at hnd
    have hspread : js_spread o₁ (p :: ps) = js_spread (js_set o₁ p.1 p.2) ps := rfl
    rw [hspread, ih (js_set o₁ p.1 p.2) k hnd.2]
    by_cases hk : k = p.1
    · have hnone : js_get ps k = none := by
        apply js_get_eq_none
        intro q hq hcon
        apply hnd.1
        rw [← hk, ← hcon]
        exact List.mem_map_of_mem Prod.fst hq
      have hhead : js_get (p :: ps) k = some p.2 := by
        unfold js_get
        rw [List.find?_cons_of_pos]
        · rfl
        · simp [hk]
      rw [hnone, hhead, hk, js_get_set_self]
      rfl
    · have hhead : js_get (p :: ps) k = js_get ps k := by
        unfold js_get
        rw [List.find?_cons_of_neg]
        simp only [beq_iff_eq]
        exact fun h => hk h.symm
      rw [hhead, js_get_set_ne o₁ p.1 k p.2 hk]

/-- C10: the config struct of `vision_generate_text` is built as
`{prompt: prompt, ...llm_config}`, so its `prompt` field is the `prompt`
argument exactly when `llm_config` carries no own `prompt` key; when it
does, that value silently replaces the argument. -/
theorem vision_generate_text_prompt_override {α : Type} (prompt : α)
    (llm_config : List (String × α))
    (hnd : (llm_config.map Prod.fst).Nodup) :
    js_get (vision_generate_text_config prompt llm_config) "prompt" =
      some ((js_get llm_config "prompt").getD prompt) := by
  unfold vision_generate_text_config
  rw [js_get_spread llm_config [("prompt", prompt)] "prompt" hnd]
  cases h : js_get llm_config "prompt" with
  | some v => rfl
  | none =>
    unfold js_get
    rw [List.find?_cons_of_pos]
    · rfl
    · rfl

/-- Witness for C10: `llm_config = {prompt: "OTHER", temperature: "0.2"}`
makes the struct carry `"OTHER"`, not the prompt argument `"P"`. -/
theorem vision_generate_text_prompt_override_witness :
    js_get (vision_generate_text_config "P"
        [("prompt", "OTHER"), ("temperature", "0.2")]) "prompt"
      = some ((js_get [("prompt", "OTHER"), ("temperature", "0.2")] "prompt").getD "P") :=
  vision_generate_text_prompt_override "P"
    [("prompt", "OTHER"), ("temperature", "0.2")] (by decide)

/-! ## Substring membership (for claims about emitted SQL text) -/

/-- Boolean substring test on character lists. -/
def list_has_sub (sub s : List Char) : Bool :=
  (List.range (s.length + 1)).any (fun i => sub.isPrefixOf (s.drop i))

/-- Boolean substring test on strings. -/
def str_has_sub (s sub : String) : Bool := list_has_sub sub.data s.data

/-- C1 (counterexample): with `batch_size = -1` the `obj_table_ml` of
`modules/object_table_ml.js` still emits a LIMIT clause (`LIMIT -1`) and
still wraps the incremental merge in a REPEAT ... UNTIL loop: its
`limit_clause` is not empty, the registered preOps contain `REPEAT` and
`LIMIT -1`, and the registered postOps contain `UNTIL` and `END REPEAT`. -/
theorem obj_table_ml_unbatched_emits_loop :
    obj_table_ml_limit_clause (-1) = "LIMIT -1"
    ∧ obj_table_ml_limit_clause (-1) ≠ ""
    ∧ str_has_sub ((obj_table_ml_preOps "uri" "src" "out" "updated" (-1)
        true).headD "") "REPEAT" = true
    ∧ str_has_sub ((obj_table_ml_preOps "uri" "src" "out" "updated" (-1)
        true).headD "") "LIMIT -1" = true
    ∧ str_has_sub ((obj_table_ml_postOps 79200 true).headD "")
        "UNTIL (SELECT @@row_count) = 0" = true
    ∧ str_has_sub ((obj_table_ml_postOps 79200 true).headD "")
        "END REPEAT" = true
    ∧ obj_table_ml_preOps "uri" "src" "out" "updated" (-1) true ≠ [""] := by
  refine ⟨rfl, by decide, by decide, by decide, by decide, by decide, by decide⟩

/-- C1 (amended): in the guarded variant (`object_table_ml.js`), a negative
`batch_size` yields an empty limit clause, registers no preOps and no
postOps (so no REPEAT/UNTIL loop is emitted and the incremental merge is a
single unbounded statement), and leaves the incremental WHERE clause as
the bare accept filter. -/
theorem guarded_obj_table_ml_unbatched_single_pass (batch_size : Int)
    (h : batch_size < 0) (unique_key source_table output_table updated_column
      accept_filter : String) (batch_duration_secs : Int) (incremental : Bool) :
    guarded_limit_clause batch_size = ""
    ∧ guarded_obj_table_ml_preOps unique_key source_table output_table
        updated_column batch_size incremental = []
    ∧ guarded_obj_table_ml_postOps batch_duration_secs batch_size
        incremental = []
    ∧ guarded_where_clause unique_key accept_filter batch_size
        = accept_filter := by
  have hneg : ¬(0 ≤ batch_size) := by omega
  refine ⟨?_, ?_, ?_, ?_⟩
  · unfold guarded_limit_clause
    rw [if_neg hneg]
  · unfold guarded_obj_table_ml_preOps
    rw [if_neg hneg]
  · unfold guarded_obj_table_ml_postOps
    rw [if_neg hneg]
  · unfold guarded_where_clause
    rw [if_neg hneg]

/-- Witness for the amended C1 at `batch_size = -1`. -/
theorem guarded_obj_table_ml_unbatched_single_pass_witness :
    guarded_limit_clause (-1) = ""
    ∧ guarded_obj_table_ml_preOps "uri" "src" "out" "updated" (-1) true = []
    ∧ guarded_obj_table_ml_postOps 79200 (-1) true = []
    ∧ guarded_where_clause "uri" "f" (-1) = "f" :=
  guarded_obj_table_ml_unbatched_single_pass (-1) (by decide)
    "uri" "src" "out" "updated" "f" 79200 true

/-- C8 (counterexample): the seed slice of `table_ml`'s init operation is
bounded by `LIMIT ${batch_size}` itself, not by a limit independent of
`batch_size`: on a two-row source, batch size 1 seeds one row and batch
size 2 seeds two rows. -/
theorem table_init_seed_depends_on_batch_size :
    (table_init (fun _ => "ok") [⟨["a"], 0⟩, ⟨["b"], 0⟩] 1 none).length = 1
    ∧ (table_init (fun _ => "ok") [⟨["a"], 0⟩, ⟨["b"], 0⟩] 2 none).length = 2
    ∧ table_init (fun _ => "ok") [⟨["a"], 0⟩, ⟨["b"], 0⟩] 1 none
        ≠ table_init (fun _ => "ok") [⟨["a"], 0⟩, ⟨["b"], 0⟩] 2 none := by
  refine ⟨rfl, rfl, by decide⟩

/-- C8 (amended): both init operations create the output only if absent and
are idempotent (an existing output is returned unchanged), and both seed
from an accepted slice; the object pipeline's seed cap is the constant 10
(independent of `batch_size`), while `table_ml`'s seed slice is capped by
`batch_size` itself. -/
theorem init_create_if_absent_idempotent
    (mlo : SrcObj → String) (so : List SrcObj) (t : List OutObj)
    (ml : SrcRow → String) (s : List SrcRow) (b : Nat) (u : List OutRow) :
    obj_init mlo so (some t) = t
    ∧ (obj_init mlo so none).length ≤ 10
    ∧ (∀ r ∈ obj_init mlo so none, accepts r.status = true)
    ∧ table_init ml s b (some u) = u
    ∧ (table_init ml s b none).length ≤ b
    ∧ (∀ r ∈ table_init ml s b none, accepts r.status = true) := by
  refine ⟨rfl, ?_, ?_, rfl, ?_, ?_⟩
  · unfold obj_init
    rw [List.length_take]
    exact min_le_left _ _
  · intro r hr
    unfold obj_init at hr
    have := List.take_subset 10 _ hr
    exact (List.mem_filter.mp this).2
  · unfold table_init
    calc (((s.take b).map (row_result ml)).filter
          (fun r => accepts r.status)).length
        ≤ ((s.take b).map (row_result ml)).length := List.length_filter_le _ _
      _ = (s.take b).length := List.length_map _ _
      _ ≤ b := by
        rw [List.length_take]
        exact min_le_left _ _
  · intro r hr
    unfold table_init at hr
    exact (List.mem_filter.mp hr).2

/-! ## Freshness-scan eligibility lemmas -/

lemma fresh_recorded_not_eligible (output : List OutObj) (s : SrcObj)
    (hrec : ∃ t ∈ output, t.uri = s.uri)
    (hstale : ∀ m, max_updated output = some m → s.updated ≤ m) :
    fresh_eligible output s = false := by
  obtain ⟨t, ht, heq⟩ := hrec
  have hall : (output.all (fun t => t.uri ≠ s.uri)) = false := by
    rw [Bool.eq_false_iff]
    intro hall
    rw [List.all_eq_true] at hall
    have := hall t ht
    simp at this
    exact this heq
  unfold fresh_eligible
  cases hm : max_updated output with
  | none => rw [hall]; rfl
  | some m =>
    have hlt : decide (m < s.updated) = false :=
      decide_eq_false (not_lt.mpr (hstale m hm))
    rw [hall]
    simpa using hlt

lemma not_mem_candidates_of_not_eligible (source : List SrcObj)
    (output : List OutObj) (s : SrcObj) (b : Nat) (hs : s ∈ source)
    (hnodup : (source.map (fun x => x.uri)).Nodup)
    (hne : fresh_eligible output s = false) :
    s.uri ∉ candidates source output b := by
  intro hmem
  unfold candidates at hmem
  have hmem2 := List.take_subset _ _ hmem
  obtain ⟨s2, hs2mem, hs2uri⟩ := List.mem_map.mp hmem2
  have hs2 := List.mem_filter.mp hs2mem
  have heqrow : s2 = s :=
    List.inj_on_of_nodup_map hnodup hs2.1 hs hs2uri
  rw [heqrow] at hs2
  rw [hs2.2] at hne
  cases hne

/-- C2 (counterexample): object X fails retryably on the bootstrap run, so
it is absent from the output table; with its freshness (0) not beyond the
recorded maximum (0), the next incremental iteration nevertheless selects
X into the candidates again via the absence disjunct. -/
theorem freshness_retryable_reselected :
    obj_init
        (fun s => if s.uri = "X" then "A retryable error occurred: quota" else "ok")
        [⟨"X", 0⟩, ⟨"Y", 0⟩] none = [⟨"Y", 0, "ok"⟩]
    ∧ retryable_status
        ((fun s : SrcObj =>
          if s.uri = "X" then "A retryable error occurred: quota" else "ok")
          ⟨"X", 0⟩) = true
    ∧ max_updated [⟨"Y", 0, "ok"⟩] = some 0
    ∧ candidates [⟨"X", 0⟩, ⟨"Y", 0⟩] [⟨"Y", 0, "ok"⟩] 500 = ["X"] := by
  refine ⟨by decide, by decide, by decide, by decide⟩

/-- C2 (amended): under the freshness scan, an object whose result is
recorded in the output table (which, by the accept filter, can only hold a
non-retryable status) and whose freshness timestamp has not advanced past
the recorded maximum is not selected into any candidates set; an object
whose prior invocation returned a retryable failure is not written and is
therefore re-selected through the absence disjunct. -/
theorem freshness_recorded_not_reselected (source : List SrcObj)
    (output : List OutObj) (s : SrcObj) (b : Nat) (hs : s ∈ source)
    (hnodup : (source.map (fun x => x.uri)).Nodup)
    (hrec : ∃ t ∈ output, t.uri = s.uri)
    (hstale : ∀ m, max_updated output = some m → s.updated ≤ m) :
    fresh_eligible output s = false ∧ s.uri ∉ candidates source output b :=
  ⟨fresh_recorded_not_eligible output s hrec hstale,
   not_mem_candidates_of_not_eligible source output s b hs hnodup
     (fresh_recorded_not_eligible output s hrec hstale)⟩

/-- Witness for the amended C2: a recorded object with unchanged freshness
is not re-selected. -/
theorem freshness_recorded_not_reselected_witness :
    fresh_eligible [⟨"X", 5, "ok"⟩] ⟨"X", 5⟩ = false
    ∧ "X" ∉ candidates [⟨"X", 5⟩] [⟨"X", 5, "ok"⟩] 500 :=
  freshness_recorded_not_reselected [⟨"X", 5⟩] [⟨"X", 5, "ok"⟩] ⟨"X", 5⟩ 500
    (by decide) (by decide) ⟨⟨"X", 5, "ok"⟩, by decide, rfl⟩
    (fun m hm => by
      have h5 : max_updated [⟨"X", 5, "ok"⟩] = some (5 : Int) := rfl
      rw [h5] at hm
      injection hm with h
      subst h
      decide)

/-- C4 (counterexample): object X has an output row with the non-retryable
status "ok" recorded at freshness 5; after X is replaced with freshness 9,
the freshness disjunct selects X into the candidates again and its result
is merged — a row with a terminal (non-retryable) output row is
re-submitted when its freshness advances. -/
theorem terminal_row_reselected_on_freshness_advance :
    obj_init (fun _ => "ok") [⟨"X", 5⟩] none = [⟨"X", 5, "ok"⟩]
    ∧ retryable_status "ok" = false
    ∧ (∃ t ∈ obj_init (fun _ => "ok") [⟨"X", 5⟩] none, t.uri = "X")
    ∧ candidates [⟨"X", 9⟩] (obj_init (fun _ => "ok") [⟨"X", 5⟩] none) 500
        = ["X"]
    ∧ obj_written (fun _ => "ok") [⟨"X", 9⟩]
        (obj_init (fun _ => "ok") [⟨"X", 5⟩] none) 500 = [⟨"X", 9, "ok"⟩] := by
  refine ⟨by decide, by decide, by decide, by decide, by decide⟩

/-- C4 (amended): a source row that already has an output row for its keys
is never again submitted — unconditionally under identity retry
(`table_ml`), and under the freshness scan (`obj_table_ml`) provided its
freshness timestamp has not advanced past the output's recorded maximum
(with an advance, re-selection is by design). -/
theorem terminal_rows_not_resubmitted :
    (∀ (out : List OutRow) (s : SrcRow), (∃ t ∈ out, t.keys = s.keys) →
      identity_eligible out s = false
      ∧ ∀ (source : List SrcRow) (b : Nat), s ∉ table_elig source out b)
    ∧ (∀ (source : List SrcObj) (output : List OutObj) (s : SrcObj) (b : Nat),
        s ∈ source → (source.map (fun x => x.uri)).Nodup →
        (∃ t ∈ output, t.uri = s.uri ∧ retryable_status t.status = false) →
        (∀ m, max_updated output = some m → s.updated ≤ m) →
        s.uri ∉ candidates source output b) := by
  constructor
  · intro out s hrec
    obtain ⟨t, ht, heq⟩ := hrec
    have helig : identity_eligible out s = false := by
      rw [Bool.eq_false_iff]
      intro hall
      rw [identity_eligible, List.all_eq_true] at hall
      have := hall t ht
      simp at this
      exact this heq
    refine ⟨helig, ?_⟩
    intro source b hmem
    have hsub := List.take_subset _ _ hmem
    have := (List.mem_filter.mp hsub).2
    rw [helig] at this
    cases this
  · intro source output s b hs hnodup hrec hstale
    obtain ⟨t, ht, heq, _⟩ := hrec
    exact not_mem_candidates_of_not_eligible source output s b hs hnodup
      (fresh_recorded_not_eligible output s ⟨t, ht, heq⟩ hstale)

/-- Witness for the amended C4 at concrete states of both pipelines. -/
theorem terminal_rows_not_resubmitted_witness :
    (identity_eligible [⟨["a"], "failed"⟩] ⟨["a"], 7⟩ = false
      ∧ ∀ (source : List SrcRow) (b : Nat),
          (⟨["a"], 7⟩ : SrcRow) ∉ table_elig source [⟨["a"], "failed"⟩] b)
    ∧ "X" ∉ candidates [⟨"X", 5⟩] [⟨"X", 5, "err"⟩] 500 := by
  constructor
  · exact terminal_rows_not_resubmitted.1 [⟨["a"], "failed"⟩] ⟨["a"], 7⟩
      ⟨⟨["a"], "failed"⟩, by decide, rfl⟩
  · exact terminal_rows_not_resubmitted.2 [⟨"X", 5⟩] [⟨"X", 5, "err"⟩]
      ⟨"X", 5⟩ 500 (by decide) (by decide)
      ⟨⟨"X", 5, "err"⟩, by decide, rfl, by decide⟩
      (fun m hm => by
        have h5 : max_updated [⟨"X", 5, "err"⟩] = some (5 : Int) := rfl
        rw [h5] at hm
        injection hm with h
        subst h
        decide)

/-- C5: every row an incremental iteration merges passes the accept filter
at write time (its status does not match the retryable pattern), in both
pipelines; and a result row with a terminal (non-retryable) status that is
in the iteration's selection is written. -/
theorem merge_writes_satisfy_accept_filter :
    (∀ (ml : SrcObj → String) (source : List SrcObj) (output : List OutObj)
        (b : Nat) (r : OutObj), r ∈ obj_written ml source output b →
        accepts r.status = true ∧ retryable_status r.status = false)
    ∧ (∀ (ml : SrcRow → String) (source : List SrcRow) (output : List OutRow)
        (b : Nat) (r : OutRow), r ∈ table_written ml source output b →
        accepts r.status = true ∧ retryable_status r.status = false)
    ∧ (∀ (ml : SrcObj → String) (source : List SrcObj) (output : List OutObj)
        (b : Nat) (s : SrcObj), s ∈ source →
        ((candidates source output b).contains s.uri) = true →
        retryable_status (ml s) = false →
        obj_result ml s ∈ obj_written ml source output b)
    ∧ (∀ (ml : SrcRow → String) (source : List SrcRow) (output : List OutRow)
        (b : Nat) (s : SrcRow), s ∈ table_elig source output b →
        retryable_status (ml s) = false →
        row_result ml s ∈ table_written ml source output b) := by
  refine ⟨?_, ?_, ?_, ?_⟩
  · intro ml source output b r hr
    have hacc := (List.mem_filter.mp hr).2
    refine ⟨hacc, ?_⟩
    unfold accepts at hacc
    simpa using hacc
  · intro ml source output b r hr
    have hacc := (List.mem_filter.mp hr).2
    refine ⟨hacc, ?_⟩
    unfold accepts at hacc
    simpa using hacc
  · intro ml source output b s hs hcand hterm
    unfold obj_written
    rw [List.mem_filter]
    constructor
    · exact List.mem_map_of_mem (obj_result ml)
        (List.mem_filter.mpr ⟨hs, hcand⟩)
    · show accepts (obj_result ml s).status = true
      unfold obj_result accepts
      simpa using hterm
  · intro ml source output b s hs hterm
    unfold table_written
    rw [List.mem_filter]
    constructor
    · exact List.mem_map_of_mem (row_result ml) hs
    · show accepts (row_result ml s).status = true
      unfold row_result accepts
      simpa using hterm

/-- Witness for C5: a terminally failed result row is written and passes
the filter; every written row of the concrete iteration is accepted. -/
theorem merge_writes_satisfy_accept_filter_witness :
    (accepts (⟨"X", 0, "Permission denied"⟩ : OutObj).status = true
      ∧ retryable_status (⟨"X", 0, "Permission denied"⟩ : OutObj).status = false)
    ∧ obj_result (fun _ => "Permission denied") ⟨"X", 0⟩ ∈
        obj_written (fun _ => "Permission denied") [⟨"X", 0⟩] [] 500 := by
  constructor
  · exact merge_writes_satisfy_accept_filter.1 (fun _ => "Permission denied")
      [⟨"X", 0⟩] [] 500 ⟨"X", 0, "Permission denied"⟩ (by decide)
  · exact (merge_writes_satisfy_accept_filter.2.2.1)
      (fun _ => "Permission denied") [⟨"X", 0⟩] [] 500 ⟨"X", 0⟩
      (by decide) (by decide) (by decide)

/-! ## Reachable outputs of `table_ml` hold only accepted rows -/

lemma reach_accepted (out : List OutRow) (h : TableReach out) :
    ∀ t ∈ out, accepts t.status = true := by
  induction h with
  | boot ml source batch_size =>
    intro t ht
    exact (List.mem_filter.mp ht).2
  | step ml source batch_size hreach ih =>
    intro t ht
    rcases List.mem_append.mp ht with hl | hr
    · exact ih t (List.mem_filter.mp hl).1
    · exact (List.mem_filter.mp hr).2

/-- C3: on every output state the `table_ml` pipeline can reach, a source
row is eligible exactly when its unique keys are absent from the output or
its recorded output row has a retryable status (the latter disjunct is
vacuous because reachable outputs hold no retryable rows); and the
eligibility predicate never compares any freshness value — it is invariant
under changing the row's non-key payload. -/
theorem identity_eligible_iff_absent_or_retryable (out : List OutRow)
    (hreach : TableReach out) (s : SrcRow) :
    (identity_eligible out s = true ↔
      ((∀ t ∈ out, t.keys ≠ s.keys) ∨
        (∃ t ∈ out, t.keys = s.keys ∧ retryable_status t.status = true)))
    ∧ (∀ u v : Int,
        identity_eligible out ⟨s.keys, u⟩ = identity_eligible out ⟨s.keys, v⟩) := by
  constructor
  · constructor
    · intro h
      left
      intro t ht
      have := (List.all_eq_true.mp h) t ht
      simpa using this
    · intro h
      rcases h with h | ⟨t, ht, hkeys, hretry⟩
      · rw [identity_eligible, List.all_eq_true]
        intro t ht
        simpa using h t ht
      · have hacc := reach_accepted out hreach t ht
        rw [accepts, hretry] at hacc
        cases hacc
  · intro u v
    rfl

/-- Witness for C3 on a concrete reachable output. -/
theorem identity_eligible_iff_absent_or_retryable_witness :
    (identity_eligible (table_init (fun _ => "ok") [⟨["a"], 0⟩] 5 none)
        ⟨["a"], 3⟩ = true ↔
      ((∀ t ∈ table_init (fun _ => "ok") [⟨["a"], 0⟩] 5 none,
          t.keys ≠ (⟨["a"], 3⟩ : SrcRow).keys) ∨
        (∃ t ∈ table_init (fun _ => "ok") [⟨["a"], 0⟩] 5 none,
          t.keys = (⟨["a"], 3⟩ : SrcRow).keys
            ∧ retryable_status t.status = true)))
    ∧ (∀ u v : Int,
        identity_eligible (table_init (fun _ => "ok") [⟨["a"], 0⟩] 5 none)
            ⟨(⟨["a"], 3⟩ : SrcRow).keys, u⟩
          = identity_eligible (table_init (fun _ => "ok") [⟨["a"], 0⟩] 5 none)
            ⟨(⟨["a"], 3⟩ : SrcRow).keys, v⟩) :=
  identity_eligible_iff_absent_or_retryable _
    (TableReach.boot (fun _ => "ok") [⟨["a"], 0⟩] 5) ⟨["a"], 3⟩

/-! ## Loop-exit characterisation -/

lemma until_cond_iff {σ : Type} (dur : Nat) (st : LoopState σ) :
    until_cond dur st = true ↔ (st.rows_written = 0 ∨ dur ≤ st.elapsed) := by
  simp [until_cond]

lemma run_loop_exit_aux {σ : Type} (step : LoopState σ → LoopState σ)
    (dur : Nat) (hstep : ∀ st : LoopState σ, st.elapsed + 1 ≤ (step st).elapsed) :
    ∀ (fuel : Nat) (st : LoopState σ), dur ≤ fuel + st.elapsed →
      ∃ n, 1 ≤ n ∧ n ≤ fuel + 1
        ∧ run_loop step dur (fuel + 1) st = iterate_loop step n st
        ∧ until_cond dur (iterate_loop step n st) = true
        ∧ ∀ m, 1 ≤ m → m < n →
            until_cond dur (iterate_loop step m st) = false := by
  intro fuel
  induction fuel with
  | zero =>
    intro st hle
    have h1 := hstep st
    have hcond : until_cond dur (step st) = true := by
      rw [until_cond_iff]
      right
      omega
    refine ⟨1, le_refl 1, le_refl 1, ?_, ?_, ?_⟩
    · show (if until_cond dur (step st) then step st
          else run_loop step dur 0 (step st)) = iterate_loop step 1 st
      rw [if_pos hcond]
      rfl
    · exact hcond
    · intro m hm1 hm2
      omega
  | succ f ih =>
    intro st hle
    by_cases hu : until_cond dur (step st) = true
    · refine ⟨1, le_refl 1, by omega, ?_, hu, ?_⟩
      · show (if until_cond dur (step st) then step st
            else run_loop step dur (f + 1) (step st)) = iterate_loop step 1 st
        rw [if_pos hu]
        rfl
      · intro m hm1 hm2
        omega
    · obtain ⟨n, hn1, hnf, hrun, hcond, hmid⟩ :=
        ih (step st) (by have := hstep st; omega)
      refine ⟨n + 1, by omega, by omega, ?_, hcond, ?_⟩
      · show (if until_cond dur (step st) then step st
            else run_loop step dur (f + 1) (step st)) = iterate_loop step (n + 1) st
        rw [if_neg hu, hrun]
        rfl
      · intro m hm1 hm2
        match m, hm1 with
        | 1, _ =>
          exact Bool.eq_false_iff.mpr hu
        | (mp + 2), _ =>
          exact hmid (mp + 1) (by omega) (by omega)

/-- C6: the REPEAT loop exits exactly when the last iteration merged zero
rows or the elapsed time reaches `batch_duration_secs`, and (since every
iteration consumes at least one second of clock) it always exits within
`batch_duration_secs + 1` iterations — it never runs forever. -/
theorem loop_exits_iff_converged_or_timeout {σ : Type}
    (step : LoopState σ → LoopState σ) (batch_duration_secs : Nat)
    (st0 : LoopState σ)
    (hstep : ∀ st, st.elapsed + 1 ≤ (step st).elapsed)
    (h0 : st0.elapsed = 0) :
    ∃ n, 1 ≤ n ∧ n ≤ batch_duration_secs + 1
      ∧ run_loop step batch_duration_secs (batch_duration_secs + 1) st0
          = iterate_loop step n st0
      ∧ ((iterate_loop step n st0).rows_written = 0
          ∨ batch_duration_secs ≤ (iterate_loop step n st0).elapsed)
      ∧ ∀ m, 1 ≤ m → m < n →
          ¬((iterate_loop step m st0).rows_written = 0
            ∨ batch_duration_secs ≤ (iterate_loop step m st0).elapsed) := by
  obtain ⟨n, hn1, hnf, hrun, hcond, hmid⟩ :=
    run_loop_exit_aux step batch_duration_secs hstep batch_duration_secs st0
      (by omega)
  refine ⟨n, hn1, hnf, hrun, (until_cond_iff _ _).mp hcond, ?_⟩
  intro m hm1 hm2 hcontra
  have := hmid m hm1 hm2
  rw [Bool.eq_false_iff] at this
  exact this ((until_cond_iff _ _).mpr hcontra)

/-- Witness for C6: the object pipeline loop body on a one-object source,
each iteration taking one second, with a three-second budget. -/
theorem loop_exits_iff_converged_or_timeout_witness :
    ∃ n, 1 ≤ n ∧ n ≤ 3 + 1
      ∧ run_loop
          (fun st => ⟨(obj_step (fun _ => "ok") [⟨"X", 0⟩] 500 st.data).1,
            (obj_step (fun _ => "ok") [⟨"X", 0⟩] 500 st.data).2,
            st.elapsed + 1⟩) 3 (3 + 1) ⟨[], 1, 0⟩
          = iterate_loop
            (fun st => ⟨(obj_step (fun _ => "ok") [⟨"X", 0⟩] 500 st.data).1,
              (obj_step (fun _ => "ok") [⟨"X", 0⟩] 500 st.data).2,
              st.elapsed + 1⟩) n ⟨[], 1, 0⟩
      ∧ ((iterate_loop
            (fun st => ⟨(obj_step (fun _ => "ok") [⟨"X", 0⟩] 500 st.data).1,
              (obj_step (fun _ => "ok") [⟨"X", 0⟩] 500 st.data).2,
              st.elapsed + 1⟩) n ⟨[], 1, 0⟩).rows_written = 0
          ∨ 3 ≤ (iterate_loop
            (fun st => ⟨(obj_step (fun _ => "ok") [⟨"X", 0⟩] 500 st.data).1,
              (obj_step (fun _ => "ok") [⟨"X", 0⟩] 500 st.data).2,
              st.elapsed + 1⟩) n ⟨[], 1, 0⟩).elapsed)
      ∧ ∀ m, 1 ≤ m → m < n →
          ¬((iterate_loop
              (fun st => ⟨(obj_step (fun _ => "ok") [⟨"X", 0⟩] 500 st.data).1,
                (obj_step (fun _ => "ok") [⟨"X", 0⟩] 500 st.data).2,
                st.elapsed + 1⟩) m ⟨[], 1, 0⟩).rows_written = 0
            ∨ 3 ≤ (iterate_loop
              (fun st => ⟨(obj_step (fun _ => "ok") [⟨"X", 0⟩] 500 st.data).1,
                (obj_step (fun _ => "ok") [⟨"X", 0⟩] 500 st.data).2,
                st.elapsed + 1⟩) m ⟨[], 1, 0⟩).elapsed) :=
  loop_exits_iff_converged_or_timeout _ 3 ⟨[], 1, 0⟩
    (fun st => Nat.le_refl (st.elapsed + 1)) rfl

/-! ## Convergence of the identity-retry loop (P1) -/

/-- Key membership in an upserted output table. -/
lemma mem_upsert_keys (out rows : List OutRow) (ks : List String) :
    (∃ t ∈ row_upsert out rows, t.keys = ks) ↔
      ((∃ t ∈ out, t.keys = ks) ∨ ∃ r ∈ rows, r.keys = ks) := by
  unfold row_upsert
  constructor
  · rintro ⟨t, ht, hks⟩
    rcases List.mem_append.mp ht with h | h
    · exact Or.inl ⟨t, (List.mem_filter.mp h).1, hks⟩
    · exact Or.inr ⟨t, h, hks⟩
  · rintro (⟨t, ht, hks⟩ | ⟨r, hr, hks⟩)
    · by_cases hk : ∀ r ∈ rows, ¬r.keys = t.keys
      · refine ⟨t, List.mem_append.mpr (Or.inl (List.mem_filter.mpr ⟨ht, ?_⟩)),
          hks⟩
        rw [List.all_eq_true]
        intro r hr
        simpa using hk r hr
      · push_neg at hk
        obtain ⟨r, hr, hreq⟩ := hk
        exact ⟨r, List.mem_append.mpr (Or.inr hr), by rw [hreq, hks]⟩
    · exact ⟨r, List.mem_append.mpr (Or.inr hr), hks⟩

lemma identity_eligible_iff_not_exists (out : List OutRow) (s : SrcRow) :
    identity_eligible out s = true ↔ ¬∃ t ∈ out, t.keys = s.keys := by
  unfold identity_eligible
  rw [List.all_eq_true]
  constructor
  · rintro h ⟨t, ht, hks⟩
    have := h t ht
    simp at this
    exact this hks
  · intro h t ht
    simp only [decide_eq_true_eq]
    exact fun hks => h ⟨t, ht, hks⟩

lemma identity_eligible_upsert (out rows : List OutRow) (s : SrcRow) :
    identity_eligible (row_upsert out rows) s = true ↔
      (identity_eligible out s = true ∧ ∀ r ∈ rows, r.keys ≠ s.keys) := by
  rw [identity_eligible_iff_not_exists, identity_eligible_iff_not_exists,
    mem_upsert_keys]
  push_neg
  constructor
  · rintro ⟨h1, h2⟩
    exact ⟨h1, fun r hr => h2 r hr⟩
  · rintro ⟨h1, h2⟩
    exact ⟨h1, fun r hr => h2 r hr⟩

/-- Dropping a prefix of a key-distinct list is the same as filtering out
rows whose key occurs in that prefix. -/
lemma filter_keyfun_append {α κ : Type} [DecidableEq κ] (key : α → κ) :
    ∀ (T D : List α), ((T ++ D).map key).Nodup →
      (T ++ D).filter (fun a => T.all (fun t => key t ≠ key a)) = D := by
  intro T
  induction T with
  | nil =>
    intro D _
    simp
  | cons t₀ T ih =>
    intro D hnd
    rw [List.map_append, List.map_cons] at hnd
    have hpair := List.nodup_cons.mp hnd
    have hme : (key t₀) ∉ (T ++ D).map key := by
      rw [List.map_append]
      exact hpair.1
    have hndtail : ((T ++ D).map key).Nodup := by
      rw [List.map_append]
      exact hpair.2
    rw [List.cons_append, List.filter_cons]
    have hpt₀ : ((t₀ :: T).all (fun t => decide (key t ≠ key t₀))) = false := by
      simp
    rw [hpt₀]
    simp only [Bool.false_eq_true, if_false]
    have hcong : (T ++ D).filter
          (fun a => (t₀ :: T).all (fun t => key t ≠ key a))
        = (T ++ D).filter (fun a => T.all (fun t => key t ≠ key a)) := by
      apply List.filter_congr
      intro a ha
      have hne : key t₀ ≠ key a := by
        intro hcontra
        exact hme (hcontra ▸ List.mem_map_of_mem key ha)
      simp [List.all_cons, hne]
    rw [hcong]
    exact ih D hndtail

lemma table_written_all_accepted (ml : SrcRow → String) (source : List SrcRow)
    (out : List OutRow) (b : Nat) (hml : ∀ s, accepts (ml s) = true) :
    table_written ml source out b
      = ((source.filter (fun s => identity_eligible out s)).take b).map
          (row_result ml) := by
  unfold table_written table_elig
  apply List.filter_eq_self.mpr
  intro r hr
  obtain ⟨s, hs, hrfl⟩ := List.mem_map.mp hr
  rw [← hrfl]
  exact hml s

/-- After one all-accepted batch, the eligible rows are exactly the former
eligible rows with the processed batch removed. -/
lemma elig_filter_step (ml : SrcRow → String) (source : List SrcRow)
    (b : Nat) (out : List OutRow)
    (hnd : (source.map (fun s => s.keys)).Nodup)
    (hml : ∀ s, accepts (ml s) = true) :
    source.filter (fun s => identity_eligible (table_step ml source b out).1 s)
      = (source.filter (fun s => identity_eligible out s)).drop b := by
  have hrows : table_written ml source out b
      = ((source.filter (fun s => identity_eligible out s)).take b).map
          (row_result ml) := table_written_all_accepted ml source out b hml
  have hstep : (table_step ml source b out).1
      = row_upsert out (table_written ml source out b) := rfl
  have hcong : source.filter
        (fun s => identity_eligible (table_step ml source b out).1 s)
      = source.filter (fun s => identity_eligible out s &&
          ((source.filter (fun s => identity_eligible out s)).take b).all
            (fun t => t.keys ≠ s.keys)) := by
    apply List.filter_congr
    intro s _
    apply bool_eq_of_iff
    rw [hstep, identity_eligible_upsert, hrows, Bool.and_eq_true,
      List.all_eq_true]
    constructor
    · rintro ⟨h1, h2⟩
      refine ⟨h1, ?_⟩
      intro t ht
      simp only [decide_eq_true_eq]
      exact h2 (row_result ml t) (List.mem_map_of_mem (row_result ml) ht)
    · rintro ⟨h1, h2⟩
      refine ⟨h1, ?_⟩
      intro r hr
      obtain ⟨t, ht, hrfl⟩ := List.mem_map.mp hr
      have := h2 t ht
      simp only [decide_eq_true_eq] at this
      rw [← hrfl]
      exact this
  rw [hcong]
  have hsplit : source.filter (fun s => identity_eligible out s &&
        ((source.filter (fun s => identity_eligible out s)).take b).all
          (fun t => t.keys ≠ s.keys))
      = (source.filter (fun s => identity_eligible out s)).filter
          (fun s => ((source.filter (fun s => identity_eligible out s)).take
            b).all (fun t => t.keys ≠ s.keys)) := by
    rw [List.filter_filter]
    apply List.filter_congr
    intro s _
    rw [Bool.and_comm]
  rw [hsplit]
  set L := source.filter (fun s => identity_eligible out s) with hL
  have hndL : (L.map (fun s => s.keys)).Nodup :=
    List.Nodup.sublist (List.Sublist.map _ (List.filter_sublist source)) hnd
  have htd : L.take b ++ L.drop b = L := List.take_append_drop b L
  have := filter_keyfun_append (fun s : SrcRow => s.keys) (L.take b) (L.drop b)
    (by rw [htd]; exact hndL)
  rw [htd] at this
  exact this

/-- The output table after `k` incremental iterations of `table_ml`, the
iteration of index `i` using the ML outcome `ml i`. -/
def table_run (ml : Nat → SrcRow → String) (source : List SrcRow) (b : Nat)
    (out : List OutRow) : Nat → List OutRow
  | 0 => out
  | k + 1 => (table_step (ml k) source b (table_run ml source b out k)).1

lemma elig_after_run (ml : Nat → SrcRow → String) (source : List SrcRow)
    (b : Nat) (out : List OutRow)
    (hnd : (source.map (fun s => s.keys)).Nodup)
    (hml : ∀ i s, accepts (ml i s) = true) :
    ∀ k, source.filter
        (fun s => identity_eligible (table_run ml source b out k) s)
      = (source.filter (fun s => identity_eligible out s)).drop (k * b) := by
  intro k
  induction k with
  | zero => simp [table_run]
  | succ k ih =>
    show source.filter (fun s => identity_eligible
        (table_step (ml k) source b (table_run ml source b out k)).1 s) = _
    rw [elig_filter_step (ml k) source b _ hnd (hml k), ih, List.drop_drop,
      Nat.succ_mul]

/-- C7: with positive `batch_size`, key-distinct source rows and no
ever-retryable outcome, the iteration following the first
`⌈|source| / batch_size⌉` incremental iterations of `table_ml` merges zero
rows (`@@row_count = 0`): the loop converges within the ceiling bound. -/
theorem identity_converges_within_ceil_bound (ml : Nat → SrcRow → String)
    (source : List SrcRow) (b : Nat) (out : List OutRow) (hb : 0 < b)
    (hnd : (source.map (fun s => s.keys)).Nodup)
    (hml : ∀ i s, accepts (ml i s) = true) :
    (table_step (ml ((source.length + b - 1) / b)) source b
      (table_run ml source b out ((source.length + b - 1) / b))).2 = 0 := by
  set K := (source.length + b - 1) / b with hK
  have hceil : source.length ≤ K * b := by
    have h := Nat.lt_div_mul_add (a := source.length + b - 1) hb
    rw [← hK] at h
    omega
  have hL : (source.filter (fun s => identity_eligible
      (table_run ml source b out K) s)) = [] := by
    rw [elig_after_run ml source b out hnd hml K]
    rw [List.drop_eq_nil_iff]
    calc (source.filter (fun s => identity_eligible out s)).length
        ≤ source.length := List.length_filter_le _ _
      _ ≤ K * b := hceil
  show (table_written (ml K) source (table_run ml source b out K) b).length = 0
  rw [table_written_all_accepted _ _ _ _ (hml K), hL]
  simp

/-- Witness for C7: three rows, batch size two, all outcomes accepted; the
third iteration writes zero rows. -/
theorem identity_converges_within_ceil_bound_witness :
    (table_step ((fun _ _ => "ok") ((([⟨["a"], 0⟩, ⟨["b"], 0⟩, ⟨["c"], 0⟩] :
        List SrcRow).length + 2 - 1) / 2)) [⟨["a"], 0⟩, ⟨["b"], 0⟩, ⟨["c"], 0⟩]
      2 (table_run (fun _ _ => "ok") [⟨["a"], 0⟩, ⟨["b"], 0⟩, ⟨["c"], 0⟩] 2 []
        ((([⟨["a"], 0⟩, ⟨["b"], 0⟩, ⟨["c"], 0⟩] : List SrcRow).length + 2 - 1)
          / 2))).2 = 0 :=
  identity_converges_within_ceil_bound (fun _ _ => "ok")
    [⟨["a"], 0⟩, ⟨["b"], 0⟩, ⟨["c"], 0⟩] 2 [] (by decide) (by decide)
    (fun _ _ => (by decide : accepts "ok" = true))
